import Mathlib

/-!
Verification of the product-ranking extraction pipeline of the paa-scraper
repository: the fetch/sanitize component (`extractor/fetcher.py`) and the
extraction component (`extractor/extractor.py`).  Strings are modelled as
lists of characters; the HTML document is modelled as an already-parsed
tree (the parser itself is an external library).  The deterministic rules
that the extraction contract imposes on the generative backend (slug
generation, duplicate-id resolution, title/label split, tag derivation)
have no executable implementation in the repository — they exist as the
literal rule text of `SYSTEM_PROMPT` — and are modelled from that text.
-/

namespace Paa

abbrev Str := List Char

/-- Lowercase a string character by character (`str.lower()` on the ASCII range). -/
def lcase (s : Str) : Str := s.map Char.toLower

/-- Python `str.strip()`: drop leading and trailing whitespace. -/
def pyStrip (s : Str) : Str :=
  ((s.dropWhile Char.isWhitespace).reverse.dropWhile Char.isWhitespace).reverse

/-- Substring test: `pat` occurs contiguously inside `s` (Python `pat in s`). -/
def isSub (pat : Str) : Str → Bool
  | [] => pat.isEmpty
  | c :: cs => pat.isPrefixOf (c :: cs) || isSub pat cs

/-- Replace every occurrence of the character `pat` by the string `rep`
(Python `s.replace(pat, rep)` for a one-character pattern). -/
def replaceAll (pat : Char) (rep : Str) : Str → Str
  | [] => []
  | c :: cs => (if c = pat then rep else [c]) ++ replaceAll pat rep cs

/-! ## Stable-ID slug generation

Modelled from the spec: `SYSTEM_PROMPT` STEP 3 of `extractor/extractor.py`
states the algorithm as eleven ordered rules; the repository contains no
executable implementation (the generative backend is instructed to apply
them), so the rules are transcribed literally here. -/

/-- Rule 7 of the slug algorithm: replace accented characters with plain
equivalents (the prompt gives `ë→e, ö→o, é→e, ü→u` as examples). -/
def accentFold (c : Char) : Char :=
  match c with
  | 'ë' | 'é' | 'è' | 'ê' | 'É' | 'È' => 'e'
  | 'ö' | 'ó' | 'ò' | 'ô' | 'Ö' => 'o'
  | 'ü' | 'ú' | 'ù' | 'û' | 'Ü' => 'u'
  | 'ä' | 'á' | 'à' | 'â' | 'Ä' => 'a'
  | 'ï' | 'í' | 'ì' | 'î' | 'Ï' => 'i'
  | 'ç' => 'c'
  | 'ñ' => 'n'
  | _ => c

/-- Rule 10: collapse multiple consecutive hyphens into one.  The flag
records whether the previously emitted character was a hyphen. -/
def collapseAux (prevHyphen : Bool) : Str → Str
  | [] => []
  | c :: cs =>
    if c = '-' then
      if prevHyphen then collapseAux true cs
      else '-' :: collapseAux true cs
    else c :: collapseAux false cs

def collapseHyphens (s : Str) : Str := collapseAux false s

/-- Rule 11: trim leading and trailing hyphens. -/
def trimHyphens (s : Str) : Str :=
  ((s.dropWhile (· = '-')).reverse.dropWhile (· = '-')).reverse

/-- Modelled from the spec: the slug function of `SYSTEM_PROMPT` STEP 3,
rules 1–11 applied in the stated order. -/
def slug (name : Str) : Str :=
  let s1 := replaceAll '/' ['-'] name
  let s2 := replaceAll '.' ['-'] s1
  let s3 := replaceAll '_' ['-'] s2
  let s4 := replaceAll '&' ['e', 'n'] s3
  let s5 := s4.filter (fun c => !(c = '\'' || c = '’' || c = '‘'))
  let s6 := lcase s5
  let s7 := s6.map accentFold
  let s8 := s7.filter (fun c => c.isAlphanum || c = ' ' || c = '-')
  let s9 := replaceAll ' ' ['-'] s8
  trimHyphens (collapseHyphens s9)

/-! ## Duplicate-id resolution

Modelled from the spec: `SYSTEM_PROMPT` STEP 3 ends with the rule
that reads: if a duplicate id occurs, append the suffix -2, -3, and so
on; read as: when the id
generated for a product is already taken, try the suffix `-2`, then `-3`,
and so on, until an unused id is found.  The repository delegates this to
the generative backend, so the rule is modelled here. -/

/-- Decimal rendering of a natural number, with explicit fuel so that the
recursion is structural. -/
def natStrAux : Nat → Nat → Str
  | 0, _ => []
  | f + 1, n =>
    if n < 10 then [Nat.digitChar n]
    else natStrAux f (n / 10) ++ [Nat.digitChar (n % 10)]

def natStr (n : Nat) : Str := natStrAux (n + 1) n

/-- The candidate id carrying the numeric suffix `-k`. -/
def mkId (base : Str) (k : Nat) : Str := base ++ '-' :: natStr k

/-- Try suffixes `-k`, `-(k+1)`, … until one is not yet used; the fuel is
always chosen large enough for the search to succeed. -/
def findFresh (used : List Str) (base : Str) : Nat → Nat → Str
  | _, 0 => mkId base 0
  | k, f + 1 => if mkId base k ∈ used then findFresh used base (k + 1) f else mkId base k

/-- The id assigned to a product whose slug is `base`, given the ids already
assigned: the bare slug if it is free, else the first free suffixed form. -/
def freshId (used : List Str) (base : Str) : Str :=
  if base ∈ used then findFresh used base 2 (used.length + 1) else base

/-- Assign ids to the given product names in order, slugifying each name and
resolving duplicates against the ids assigned so far. -/
def assignIds (used : List Str) : List Str → List Str
  | [] => []
  | n :: ns =>
    let i := freshId used (slug n)
    i :: assignIds (i :: used) ns

def productIds (names : List Str) : List Str := assignIds [] names

/-! ## Title and label split

Modelled from the spec: `SYSTEM_PROMPT` STEP 2.  The heading text is
checked for a dash surrounded by spaces — the prompt lists exactly the two
patterns `" – "` (en dash) and `" - "` (hyphen) — and split on the first
occurrence; the left part becomes the label when it starts
(case-insensitively) with one of six fixed qualifier words. -/

/-- True when the string begins with one of the two dash-with-spaces
patterns of the prompt: space, hyphen or en dash, space. -/
def isDashPat : Str → Bool
  | ' ' :: '-' :: ' ' :: _ => true
  | ' ' :: '–' :: ' ' :: _ => true
  | _ => false

/-- Split at the first occurrence of a dash-with-spaces pattern, returning
the parts to its left and right, or `none` when no pattern occurs. -/
def splitDash : Str → Option (Str × Str)
  | [] => none
  | c :: cs =>
    if isDashPat (c :: cs) then some ([], cs.drop 2)
    else (splitDash cs).map (fun p => (c :: p.1, p.2))

/-- The six qualifier words of the prompt, lowercased for the
case-insensitive comparison. -/
def QUALIFIER_WORDS : List Str :=
  ["de beste".toList, "beste".toList, "premium".toList, "budget".toList,
   "onze keuze".toList, "aanrader".toList]

def qualifies (left : Str) : Bool :=
  QUALIFIER_WORDS.any (fun q => q.isPrefixOf (lcase left))

/-- Modelled from the spec: STEP 2 of `SYSTEM_PROMPT` — the
`(title_label, name)` pair extracted from the first H2 text of a product
container. -/
def titleSplit (h2 : Str) : Option Str × Str :=
  match splitDash h2 with
  | none => (none, pyStrip h2)
  | some (l, r) =>
    if qualifies (pyStrip l) then (some (pyStrip l), pyStrip r)
    else (none, pyStrip h2)

/-! ## Tag derivation

Modelled from the spec: `SYSTEM_PROMPT` STEP 6 — four rules evaluated in
fixed order over rank, title label, summary and pros; closed vocabulary. -/

/-- Case-insensitive containment (`pat.lower() in s.lower()`). -/
def containsCI (s pat : Str) : Bool := isSub (lcase pat) (lcase s)

/-- The four "best value for money" phrases of rule 4. -/
def VALUE_PHRASES : List Str :=
  ["prijs-kwaliteit".toList, "beste koop".toList,
   "sterkste keuze binnen".toList, "beste keuze voor je geld".toList]

/-- Modelled from the spec: STEP 6 of `SYSTEM_PROMPT`.  The tags of a
product, computed from its rank, optional title label, summary and pros
list and from nothing else. -/
def computeTags (rank : Nat) (titleLabel : Option Str) (summary : Str)
    (pros : List Str) : List Str :=
  let lblHas (pat : Str) : Bool :=
    match titleLabel with
    | some l => containsCI l pat
    | none => false
  (if rank = 1 then ["best_overall".toList] else [])
    ++ (if lblHas "budget".toList then ["budget_pick".toList] else [])
    ++ (if lblHas "luxe".toList || lblHas "premium".toList then
          ["premium_pick".toList] else [])
    ++ (if VALUE_PHRASES.any (fun ph =>
          lblHas ph || containsCI summary ph || pros.any (fun p => containsCI p ph))
        then ["best_value".toList] else [])

/-! ## The document model and the sanitize pipeline of `extractor/fetcher.py`

The document is modelled as an already-parsed tree: `BeautifulSoup` is an
external parsing library, and `fetch_and_clean` only ever manipulates the
parsed tree (element removal, first-match lookup, re-serialization). -/

mutual
inductive Node where
  | element (tag : Str) (attrs : List (Str × Str)) (children : Forest)
  | text (s : Str)
  | comment (s : Str)
inductive Forest where
  | nil
  | cons (n : Node) (ns : Forest)
end

/-- The `STRIP_TAGS` list of `extractor/fetcher.py`. -/
def STRIP_TAGS : List Str :=
  ["script".toList, "style".toList, "noscript".toList, "iframe".toList,
   "svg".toList, "nav".toList, "footer".toList, "header".toList,
   "aside".toList, "form".toList, "input".toList, "button".toList,
   "select".toList, "textarea".toList]

/-- First value of an attribute, by name (`tag.attrs.get(name)`). -/
def attrLookup (key : Str) : List (Str × Str) → Option Str
  | [] => none
  | (k, v) :: rest => if k = key then some v else attrLookup key rest

/-- The element carries a tag from `STRIP_TAGS`. -/
def isStripTag : Node → Bool
  | .element t _ _ => STRIP_TAGS.contains t
  | _ => false

def isCommentNode : Node → Bool
  | .comment _ => true
  | _ => false

/-- The hidden-style test of `fetcher.py` line 46: the inline style value,
with every space character removed (`v.replace(" ", "")`), contains the
substring `display:none`. -/
def isStyleHidden : Node → Bool
  | .element _ a _ =>
    match attrLookup "style".toList a with
    | some v => isSub "display:none".toList (v.filter (· ≠ ' '))
    | none => false
  | _ => false

/-- The element carries a `hidden` attribute
(`find_all(attrs=\x7b"hidden": True\x7d)`). -/
def hasHiddenAttr : Node → Bool
  | .element _ a _ =>
    match attrLookup "hidden".toList a with
    | some _ => true
    | none => false
  | _ => false

/-- One `find_all` + `decompose`/`extract` pass: remove every node
matching `p`, at any depth, keeping everything else in order. -/
def removeF (p : Node → Bool) : Forest → Forest
  | .nil => .nil
  | .cons (.element t a cs) ns =>
    if p (.element t a cs) then removeF p ns
    else .cons (.element t a (removeF p cs)) (removeF p ns)
  | .cons n ns => if p n then removeF p ns else .cons n (removeF p ns)

/-- Lines 36–49 of `fetcher.py`: strip the chrome tags, then comments,
then `display:none`-styled elements, then elements with a `hidden`
attribute. -/
def sanitizeF (doc : Forest) : Forest :=
  removeF hasHiddenAttr (removeF isStyleHidden
    (removeF isCommentNode (removeF isStripTag doc)))

mutual
/-- `soup.find(tag)` on a single node: the node itself if it is an element
with the given tag, else the first match among its descendants. -/
def findTagN (t : Str) : Node → Option Node
  | .element t' a cs =>
    if t' = t then some (.element t' a cs) else findTagF t cs
  | _ => none

/-- `soup.find(tag)`: first matching element in document order. -/
def findTagF (t : Str) : Forest → Option Node
  | .nil => none
  | .cons n ns =>
    match findTagN t n with
    | some m => some m
    | none => findTagF t ns
end

def serializeAttrs : List (Str × Str) → Str :=
  fun a => a.foldr (fun (kv : Str × Str) acc =>
    ' ' :: (kv.1 ++ '=' :: '"' :: kv.2 ++ '"' :: acc)) []

mutual
/-- Serialization of one node back to markup text (`str(tag)`). -/
def serializeN : Node → Str
  | .element t a cs =>
    '<' :: (t ++ serializeAttrs a ++ ['>'])
      ++ serializeF cs ++ ('<' :: '/' :: (t ++ ['>']))
  | .text s => s
  | .comment s => "<!--".toList ++ s ++ "-->".toList

def serializeF : Forest → Str
  | .nil => []
  | .cons n ns => serializeN n ++ serializeF ns
end

/-- The `.string` convenience property of BeautifulSoup: the single string
child, recursing through a single element child. -/
def nodeString : Node → Option Str
  | .element _ _ (.cons c .nil) =>
    match c with
    | .text s => some s
    | .comment s => some s
    | c' => nodeString c'
  | _ => none

/-- Line 33 of `fetcher.py`: the page title, captured before any removal. -/
def titleOf (doc : Forest) : Str :=
  match findTagF "title".toList doc with
  | some n =>
    match nodeString n with
    | some s => pyStrip s
    | none => []
  | none => []

/-- Lines 51–53 of `fetcher.py`: select the content root — first `<main>`,
else first `<article>`, else `<body>`, else the whole document — and
serialize exactly that subtree. -/
def cleanedMarkup (doc : Forest) : Str :=
  let s := sanitizeF doc
  match findTagF "main".toList s with
  | some m => serializeN m
  | none =>
    match findTagF "article".toList s with
    | some m => serializeN m
    | none =>
      match findTagF "body".toList s with
      | some m => serializeN m
      | none => serializeF s

/-- The pure part of `fetch_and_clean` (lines 31–55): from the parsed
document to `(cleaned_html, page_title)`. -/
def cleanDoc (doc : Forest) : Str × Str := (cleanedMarkup doc, titleOf doc)

/-! Spec-side helpers, used to state properties about the pipeline in
vocabulary independent of the recursive implementations above. -/

/-- The node is an element with the given tag name. -/
def isTagB (t : Str) : Node → Bool
  | .element t' _ _ => t' = t
  | _ => false

mutual
/-- Document-order (pre-order) traversal listing every node of the tree,
each with its subtree intact. -/
def preorderN : Node → List Node
  | .element t a cs => .element t a cs :: preorderF cs
  | n => [n]

def preorderF : Forest → List Node
  | .nil => []
  | .cons n ns => preorderN n ++ preorderF ns
end

/-- No node anywhere in the forest satisfies `p`. -/
def noneSatF (p : Node → Bool) : Forest → Bool
  | .nil => true
  | .cons (.element t a cs) ns =>
    !p (.element t a cs) && noneSatF p cs && noneSatF p ns
  | .cons n ns => !p n && noneSatF p ns

mutual
/-- The concatenated text content of a node (`tag.get_text()`). -/
def textContentN : Node → Str
  | .element _ _ cs => textContentF cs
  | .text s => s
  | .comment _ => []

def textContentF : Forest → Str
  | .nil => []
  | .cons n ns => textContentN n ++ textContentF ns
end

/-! ## The fetch contract of `fetch_and_clean` (lines 21–29)

The network is modelled as a function from attempt numbers to outcomes;
the code performs a single `client.get` followed by
`resp.raise_for_status()`, which raises unless the status code is a 2xx
success.  A timeout or transport failure of the attempt itself is an
error outcome of the attempt. -/

inductive FetchErr where
  | timeout
  | transport
  | httpStatus (code : Nat)
deriving DecidableEq

/-- An HTTP response: final status code (after redirects) and the parsed
document of its body. -/
structure HResp where
  status : Nat
  doc : Forest

/-- The fetch component: one attempt (`net 0`), `raise_for_status`, then
the sanitize pipeline on the parsed body. -/
def fetch_and_clean (net : Nat → Except FetchErr HResp) :
    Except FetchErr (Str × Str) :=
  match net 0 with
  | .error e => .error e
  | .ok r =>
    if 200 ≤ r.status ∧ r.status < 300 then .ok (cleanDoc r.doc)
    else .error (.httpStatus r.status)

/-! ## Response handling of `extract_products` (lines 188–197)

The generative call and the JSON parser are external; the call outcome
and the parse function are parameters.  The code trims the response text,
strips a markdown fence if one is present — `raw.split("\n", 1)[1]`
raises `IndexError` when the text has no newline — and parses the rest;
`json.loads` failure raises `json.JSONDecodeError`, which carries the
document it was given. -/

inductive ExtractOutcome (α : Type) where
  | ok (v : α)
  | backendError
  | extractionError (doc : Str)
  | indexError
deriving DecidableEq

/-- The three-backtick fence marker. -/
def FENCE : Str := [Char.ofNat 96, Char.ofNat 96, Char.ofNat 96]

/-- Python `raw.split("\n", 1)`: the parts before and after the first
newline, or `none` when the string contains no newline. -/
def splitFirstNewline : Str → Option (Str × Str)
  | [] => none
  | c :: cs =>
    if c = '\n' then some ([], cs)
    else (splitFirstNewline cs).map (fun p => (c :: p.1, p.2))

/-- Lines 188–197 of `extractor/extractor.py`: the post-processing of the
backend response. -/
def extract_products {α : Type} (resp : Except Unit Str)
    (parse : Str → Option α) : ExtractOutcome α :=
  match resp with
  | .error _ => .backendError
  | .ok text =>
    let raw := pyStrip text
    if FENCE.isPrefixOf raw then
      match splitFirstNewline raw with
      | none => .indexError
      | some (_, rest) =>
        let r2 := if FENCE.isSuffixOf rest then rest.take (rest.length - 3) else rest
        let r3 := pyStrip r2
        match parse r3 with
        | some v => .ok v
        | none => .extractionError r3
    else
      match parse raw with
      | some v => .ok v
      | none => .extractionError raw

/-! Concrete test documents. -/

def toForest : List Node → Forest
  | [] => .nil
  | n :: ns => .cons n (toForest ns)

def elt (t : String) (a : List (String × String)) (cs : List Node) : Node :=
  .element t.toList (a.map fun kv => (kv.1.toList, kv.2.toList)) (toForest cs)

def txt (s : String) : Node := .text s.toList

/-- The spec's sanitization scenario: a script block, a nav block and a
hidden div, each with a distinctive text, plus visible content. -/
def sampleDoc : Forest := toForest
  [elt "html" []
    [elt "head" [] [elt "title" [] [txt "Testpagina"]],
     elt "body" []
      [elt "script" [] [txt "SCRIPTSECRET"],
       elt "nav" [] [txt "NAVSECRET"],
       elt "div" [("style", "display:none")] [txt "HIDDENSECRET"],
       elt "p" [] [txt "Zichtbare inhoud"]]]]

/-- A document whose script text also occurs in retained content. -/
def leakDoc : Forest := toForest
  [elt "html" []
    [elt "body" []
      [elt "script" [] [txt "x"],
       elt "nav" [] [txt "NAVSECRET"],
       elt "div" [("style", "display:none")] [txt "HIDDENSECRET"],
       elt "p" [] [txt "x"]]]]

/-- A div hidden with a tab inside the style value. -/
def tabDoc : Forest := toForest
  [elt "html" []
    [elt "body" []
      [elt "div" [("style", "display:\tnone")] [txt "TABSECRET"],
       elt "p" [] [txt "zichtbaar"]]]]

/-- A div hidden with a plain space inside the style value, and a div
with a `hidden` attribute. -/
def spaceDoc : Forest := toForest
  [elt "html" []
    [elt "body" []
      [elt "div" [("style", "display: none")] [txt "SPACESECRET"],
       elt "div" [("hidden", "")] [txt "HIDATTRSECRET"],
       elt "p" [] [txt "zichtbare tekst"]]]]

/-- A predicate on nodes that does not look at an element's children. -/
def ChildBlind (p : Node → Bool) : Prop :=
  ∀ t a cs cs', p (.element t a cs) = p (.element t a cs')

/-! ## Supporting lemmas -/

theorem prefixOf_iff {l₁ l₂ : Str} : l₁.isPrefixOf l₂ = true ↔ ∃ t, l₁ ++ t = l₂ := by
  rw [ List.isPrefixOf_iff_prefix]
  exact Iff.rfl

theorem suffixOf_iff {l₁ l₂ : Str} : l₁.isSuffixOf l₂ = true ↔ ∃ t, t ++ l₁ = l₂ := by
  rw [ List.isSuffixOf_iff_suffix]
  exact Iff.rfl

theorem isSub_iff {pat s : Str} : isSub pat s = true ↔ ∃ l r, s = l ++ pat ++ r := by
  induction s with
  | nil =>
    simp only [isSub, List.isEmpty_iff]
    constructor
    · intro h
      exact ⟨[], [], by simp [h]⟩
    · rintro ⟨l, r, h⟩
      rcases List.append_eq_nil.mp h.symm with ⟨h1, h2⟩
      rcases List.append_eq_nil.mp h1 with ⟨_, h3⟩
      exact h3
  | cons c cs ih =>
    simp only [isSub, Bool.or_eq_true, ih]
    constructor
    · rintro (hp | ⟨l, r, rfl⟩)
      · rcases prefixOf_iff.mp hp with ⟨t, ht⟩
        exact ⟨[], t, by simp [ht]⟩
      · exact ⟨c :: l, r, by simp⟩
    · rintro ⟨l, r, h⟩
      match l, h with
      | [], h =>
        left
        exact prefixOf_iff.mpr ⟨r, by simpa using h.symm⟩
      | a :: l', h =>
        right
        have h2 : cs = l' ++ pat ++ r := by
          simp only [List.cons_append] at h
          simpa using (List.cons_eq_cons.mp h).2
        exact ⟨l', r, h2⟩

theorem isSub_trans {p q s : Str} (h1 : isSub p q = true) (h2 : isSub q s = true) :
    isSub p s = true := by
  rcases isSub_iff.mp h1 with ⟨lq, rq, rfl⟩
  rcases isSub_iff.mp h2 with ⟨ls, rs, rfl⟩
  exact isSub_iff.mpr ⟨ls ++ lq, rq ++ rs, by simp⟩

theorem pyStrip_append_ws {c : Char} (hc : c.isWhitespace = true) (s : Str) :
    pyStrip (s ++ [c]) = pyStrip s := by
  unfold pyStrip
  rw [List.dropWhile_append]
  by_cases h : (s.dropWhile Char.isWhitespace).isEmpty
  · rw [if_pos h]
    have h1 : List.dropWhile Char.isWhitespace [c] = [] := by simp [hc]
    have h2 : s.dropWhile Char.isWhitespace = [] := List.isEmpty_iff.mp h
    rw [h1, h2]
  · simp only [h, if_neg, Bool.false_eq_true, not_false_eq_true, ite_false,
      List.reverse_append, List.reverse_cons, List.reverse_nil, List.nil_append]
    simp [hc]

theorem splitFirstNewline_append {h : Str} (rest : Str) (hh : '\n' ∉ h) :
    splitFirstNewline (h ++ '\n' :: rest) = some (h, rest) := by
  induction h with
  | nil => simp [splitFirstNewline]
  | cons a h' ih =>
    have ha : a ≠ '\n' := fun e => hh (e ▸ List.mem_cons_self a h')
    have ih' := ih (fun m => hh (List.mem_cons_of_mem a m))
    simp [splitFirstNewline, ha, ih']

/-! ## Claim theorems -/

/-- C1: the slug algorithm of the stable-ID rules maps
"Philips LatteGo 5500 EP5543/90" to "philips-lattego-5500-ep5543-90" and
"De'Longhi Eletta Explore ECAM450.65.G" to
"delonghi-eletta-explore-ecam450-65-g". -/
theorem slug_examples :
    slug "Philips LatteGo 5500 EP5543/90".toList
      = "philips-lattego-5500-ep5543-90".toList ∧
    slug "De'Longhi Eletta Explore ECAM450.65.G".toList
      = "delonghi-eletta-explore-ecam450-65-g".toList :=
  ⟨by decide, by decide⟩

/-- C10: a backend response whose trimmed text is exactly the fence
marker (it begins with three backticks and contains no newline) makes the
fence-stripping step fail with an `IndexError` before any JSON parsing is
attempted — the result does not depend on the parse function at all. -/
theorem extract_products_fence_index_error :
    ∀ (α : Type) (parse : Str → Option α),
      extract_products (Except.ok FENCE) parse = ExtractOutcome.indexError ∧
      extract_products (Except.ok (FENCE ++ "json".toList)) parse
        = ExtractOutcome.indexError := by
  intro α parse
  exact ⟨rfl, rfl⟩

/-- C9: `fetch_and_clean` makes exactly one fetch attempt — its result
depends only on the outcome of attempt 0 — and it fails with the fetch
error (timeout/transport propagated, non-2xx status turned into an HTTP
status error) whenever that attempt is not a success. -/
theorem fetch_single_attempt :
    (∀ net net' : Nat → Except FetchErr HResp, net 0 = net' 0 →
        fetch_and_clean net = fetch_and_clean net') ∧
    (∀ (net : Nat → Except FetchErr HResp) (e : FetchErr),
        net 0 = Except.error e → fetch_and_clean net = Except.error e) ∧
    (∀ (net : Nat → Except FetchErr HResp) (r : HResp),
        net 0 = Except.ok r → ¬(200 ≤ r.status ∧ r.status < 300) →
        fetch_and_clean net = Except.error (FetchErr.httpStatus r.status)) := by
  refine ⟨?_, ?_, ?_⟩
  · intro net net' h
    unfold fetch_and_clean
    rw [h]
  · intro net e h
    unfold fetch_and_clean
    rw [h]
  · intro net r h hs
    unfold fetch_and_clean
    rw [h]
    simp [hs]

/-- Witness for C9 at concrete attempt outcomes: a timeout outcome and a
404 response, and the irrelevance of later attempts. -/
theorem fetch_single_attempt_witness :
    fetch_and_clean (fun _ => Except.error FetchErr.timeout)
      = Except.error FetchErr.timeout ∧
    fetch_and_clean (fun _ => Except.ok ⟨404, Forest.nil⟩)
      = Except.error (FetchErr.httpStatus 404) ∧
    fetch_and_clean (fun _ => Except.error FetchErr.timeout)
      = fetch_and_clean (fun i =>
          if i = 0 then Except.error FetchErr.timeout else Except.ok ⟨200, Forest.nil⟩) :=
  ⟨fetch_single_attempt.2.1 _ _ rfl,
   fetch_single_attempt.2.2 _ _ rfl (by decide),
   fetch_single_attempt.1 _ _ rfl⟩

/-- C3: for a backend response surrounded by a code fence (a fence header
line followed by the payload and a closing fence), `extract_products`
strips the fence before parsing, and an unparseable remaining payload
yields `extractionError` retaining that payload; the same holds for an
unfenced response; and `extractionError` is a failure distinct from the
`backendError` produced when the backend call itself fails. -/
theorem extract_products_fence_and_error :
    (∀ (α : Type) (parse : Str → Option α) (header body : Str),
        FENCE.isPrefixOf header = true →
        '\n' ∉ header →
        pyStrip (header ++ '\n' :: (body ++ '\n' :: FENCE))
          = header ++ '\n' :: (body ++ '\n' :: FENCE) →
        extract_products (Except.ok (header ++ '\n' :: (body ++ '\n' :: FENCE))) parse
          = match parse (pyStrip body) with
            | some v => ExtractOutcome.ok v
            | none => ExtractOutcome.extractionError (pyStrip body)) ∧
    (∀ (α : Type) (parse : Str → Option α) (text : Str),
        FENCE.isPrefixOf (pyStrip text) = false →
        extract_products (Except.ok text) parse
          = match parse (pyStrip text) with
            | some v => ExtractOutcome.ok v
            | none => ExtractOutcome.extractionError (pyStrip text)) ∧
    (∀ (α : Type) (d : Str),
        (ExtractOutcome.extractionError d : ExtractOutcome α)
          ≠ ExtractOutcome.backendError) ∧
    (∀ (α : Type) (parse : Str → Option α),
        extract_products (Except.error ()) parse = ExtractOutcome.backendError) := by
  refine ⟨?_, ?_, ?_, ?_⟩
  · intro α parse header body hpre hnl hstrip
    have hpre2 : FENCE.isPrefixOf (header ++ '\n' :: (body ++ '\n' :: FENCE)) = true := by
      rcases prefixOf_iff.mp hpre with ⟨t, rfl⟩
      exact prefixOf_iff.mpr ⟨t ++ '\n' :: (body ++ '\n' :: FENCE), by simp⟩
    have hsplit : splitFirstNewline (header ++ '\n' :: (body ++ '\n' :: FENCE))
        = some (header, body ++ '\n' :: FENCE) := splitFirstNewline_append _ hnl
    have hsuf : FENCE.isSuffixOf (body ++ '\n' :: FENCE) = true :=
      suffixOf_iff.mpr ⟨body ++ ['\n'], by simp⟩
    have htake : (body ++ '\n' :: FENCE).take ((body ++ '\n' :: FENCE).length - 3)
        = body ++ ['\n'] := by
      have harr : body ++ '\n' :: FENCE = (body ++ ['\n']) ++ FENCE := by simp
      rw [harr]
      rw [List.take_left' (by simp [FENCE])]
    have hbody : pyStrip (body ++ ['\n']) = pyStrip body :=
      pyStrip_append_ws (by decide) body
    simp only [extract_products, hstrip, hpre2, if_true, hsplit, hsuf, htake, hbody]
  · intro α parse text h
    simp only [extract_products, h, Bool.false_eq_true, if_false]
  · intro α d h
    exact ExtractOutcome.noConfusion h
  · intro α parse
    rfl

/-- Witness for C3 at a concrete fenced unparseable response, a concrete
unfenced unparseable response, and the concrete distinctness of the two
failure kinds. -/
theorem extract_products_fence_and_error_witness :
    extract_products
        (Except.ok ((FENCE ++ "json".toList) ++ '\n' :: ("not json".toList ++ '\n' :: FENCE)))
        (fun _ => (none : Option Unit))
      = ExtractOutcome.extractionError "not json".toList ∧
    extract_products (Except.ok "  also not json ".toList) (fun _ => (none : Option Unit))
      = ExtractOutcome.extractionError "also not json".toList ∧
    (ExtractOutcome.extractionError "not json".toList : ExtractOutcome Unit)
      ≠ ExtractOutcome.backendError ∧
    extract_products (Except.error ()) (fun _ => (none : Option Unit))
      = ExtractOutcome.backendError := by
  refine ⟨?_, ?_, ?_, ?_⟩
  · have h := extract_products_fence_and_error.1 Unit (fun _ => none)
      (FENCE ++ "json".toList) "not json".toList (by decide) (by decide) (by decide)
    exact h.trans (by decide)
  · have h := extract_products_fence_and_error.2.1 Unit (fun _ => none)
      "  also not json ".toList (by decide)
    exact h.trans (by decide)
  · exact extract_products_fence_and_error.2.2.1 Unit "not json".toList
  · exact extract_products_fence_and_error.2.2.2 Unit (fun _ => none)

theorem natStrAux_congr :
    ∀ n f f' : Nat, n < f → n < f' → natStrAux f n = natStrAux f' n := by
  intro n
  induction n using Nat.strong_induction_on with
  | _ n ih =>
    intro f f' hf hf'
    match f, hf, f', hf' with
    | f + 1, hf, f' + 1, hf' =>
      simp only [natStrAux]
      by_cases h : n < 10
      · simp [h]
      · have hd : n / 10 < n := Nat.div_lt_self (by omega) (by norm_num)
        simp only [h, if_false]
        rw [ih (n / 10) hd f f' (by omega) (by omega)]

theorem natStr_eq (n : Nat) :
    natStr n = if n < 10 then [Nat.digitChar n]
               else natStr (n / 10) ++ [Nat.digitChar (n % 10)] := by
  by_cases h : n < 10
  · simp [natStr, natStrAux, h]
  · have hd : n / 10 < n := Nat.div_lt_self (by omega) (by norm_num)
    have lhs : natStr n = natStrAux n (n / 10) ++ [Nat.digitChar (n % 10)] := by
      simp only [natStr, natStrAux, h, if_false]
    rw [lhs, if_neg h, natStrAux_congr (n / 10) n (n / 10 + 1) hd (by omega)]
    rfl

theorem natStr_ne_nil (n : Nat) : natStr n ≠ [] := by
  rw [natStr_eq]
  by_cases h : n < 10 <;> simp [h]

theorem digitChar_inj_lt :
    ∀ a b : Nat, a < 10 → b < 10 → Nat.digitChar a = Nat.digitChar b → a = b := by
  have key : ∀ a b : Fin 10, Nat.digitChar a.val = Nat.digitChar b.val → a = b := by decide
  intro a b ha hb h
  have := key ⟨a, ha⟩ ⟨b, hb⟩ h
  exact congrArg Fin.val this

theorem natStr_inj : ∀ m n : Nat, natStr m = natStr n → m = n := by
  intro m
  induction m using Nat.strong_induction_on with
  | _ m ih =>
    intro n h
    rw [natStr_eq m, natStr_eq n] at h
    by_cases hm : m < 10 <;> by_cases hn : n < 10
    · simp only [hm, hn, if_true] at h
      exact digitChar_inj_lt m n hm hn (by simpa using h)
    · simp only [hm, hn, if_true, if_false] at h
      have hlen := congrArg List.length h
      simp only [List.length_append, List.length_cons, List.length_nil] at hlen
      exact absurd (List.eq_nil_of_length_eq_zero (by omega)) (natStr_ne_nil (n / 10))
    · simp only [hm, hn, if_true, if_false] at h
      have hlen := congrArg List.length h
      simp only [List.length_append, List.length_cons, List.length_nil] at hlen
      exact absurd (List.eq_nil_of_length_eq_zero (by omega)) (natStr_ne_nil (m / 10))
    · simp only [hm, hn, if_false] at h
      obtain ⟨h1, h2⟩ := List.append_inj' h (by simp)
      have hd : m / 10 < m := Nat.div_lt_self (by omega) (by norm_num)
      have e1 : m / 10 = n / 10 := ih (m / 10) hd (n / 10) h1
      have e2 : m % 10 = n % 10 :=
        digitChar_inj_lt _ _ (Nat.mod_lt _ (by norm_num)) (Nat.mod_lt _ (by norm_num))
          (by simpa using h2)
      omega

theorem mkId_inj (base : Str) : ∀ k k' : Nat, mkId base k = mkId base k' → k = k' := by
  intro k k' h
  unfold mkId at h
  have h2 := List.append_cancel_left h
  exact natStr_inj k k' (by simpa using h2)

theorem findFresh_spec (used : List Str) (base : Str) :
    ∀ f k : Nat, (∃ i, i < f ∧ mkId base (k + i) ∉ used) →
      findFresh used base k f ∉ used := by
  intro f
  induction f with
  | zero =>
    rintro k ⟨i, hi, _⟩
    omega
  | succ f ih =>
    rintro k ⟨i, hi, hfree⟩
    simp only [findFresh]
    by_cases hmem : mkId base k ∈ used
    · rw [if_pos hmem]
      apply ih
      match i, hi, hfree with
      | 0, _, hfree => exact absurd hmem (by simpa using hfree)
      | j + 1, hi, hfree =>
        refine ⟨j, by omega, ?_⟩
        have : k + 1 + j = k + (j + 1) := by omega
        rw [this]
        exact hfree
    · rw [if_neg hmem]
      exact hmem

theorem exists_fresh (used : List Str) (base : Str) (k : Nat) :
    ∃ i, i < used.length + 1 ∧ mkId base (k + i) ∉ used := by
  by_contra hcon
  push_neg at hcon
  have hsub : ((List.range (used.length + 1)).map (fun i => mkId base (k + i))) ⊆ used := by
    intro x hx
    rcases List.mem_map.mp hx with ⟨i, hi, rfl⟩
    exact hcon i (List.mem_range.mp hi)
  have hnd : ((List.range (used.length + 1)).map (fun i => mkId base (k + i))).Nodup := by
    refine List.Nodup.map ?_ (List.nodup_range _)
    intro i j hij
    have := mkId_inj base (k + i) (k + j) hij
    omega
  have hle := (hnd.subperm hsub).length_le
  simp at hle

theorem freshId_not_mem (used : List Str) (base : Str) : freshId used base ∉ used := by
  unfold freshId
  by_cases h : base ∈ used
  · rw [if_pos h]
    exact findFresh_spec used base (used.length + 1) 2 (exists_fresh used base 2)
  · rw [if_neg h]
    exact h

theorem assignIds_spec :
    ∀ names used : List Str,
      (assignIds used names).Nodup ∧ ∀ x ∈ assignIds used names, x ∉ used := by
  intro names
  induction names with
  | nil => simp [assignIds]
  | cons n ns ih =>
    intro used
    simp only [assignIds]
    obtain ⟨hnd, hdisj⟩ := ih (freshId used (slug n) :: used)
    refine ⟨List.nodup_cons.mpr ⟨fun hmem => ?_, hnd⟩, ?_⟩
    · exact (hdisj _ hmem) (List.mem_cons_self _ _)
    · intro x hx
      rcases List.mem_cons.mp hx with rfl | hx'
      · exact freshId_not_mem used _
      · intro hxu
        exact (hdisj x hx') (List.mem_cons_of_mem _ hxu)

/-- C2: the ids assigned to the products of one extraction result are
pairwise distinct for every list of product names; when several names
slugify to the same string, the first occurrence keeps the bare slug and
later occurrences receive the suffixes "-2", "-3", … in order of first
occurrence, as on the two- and three-fold "budget-pick" collisions. -/
theorem productIds_nodup :
    (∀ names : List Str, (productIds names).Nodup) ∧
    productIds ["Budget Pick".toList, "Budget Pick".toList]
      = ["budget-pick".toList, "budget-pick-2".toList] ∧
    productIds ["Budget Pick".toList, "Budget Pick".toList, "Budget Pick".toList]
      = ["budget-pick".toList, "budget-pick-2".toList, "budget-pick-3".toList] :=
  ⟨fun names => (assignIds_spec names []).1, by decide, by decide⟩

theorem splitDash_eq_none :
    ∀ h2 : Str, (∀ i, i < h2.length → isDashPat (h2.drop i) = false) →
      splitDash h2 = none := by
  intro h2
  induction h2 with
  | nil => intro _; rfl
  | cons c cs ih =>
    intro h
    have h0 : isDashPat (c :: cs) = false := by simpa using h 0 (by simp)
    have hshift : ∀ i, i < cs.length → isDashPat (cs.drop i) = false := by
      intro i hi
      simpa [List.drop_succ_cons] using h (i + 1) (by simp; omega)
    simp [splitDash, h0, ih hshift]

theorem splitDash_append :
    ∀ (l : Str) (d : Char) (r : Str), (d = '-' ∨ d = '–') →
      (∀ i, i < l.length → isDashPat ((l ++ ' ' :: d :: ' ' :: r).drop i) = false) →
      splitDash (l ++ ' ' :: d :: ' ' :: r) = some (l, r) := by
  intro l
  induction l with
  | nil =>
    intro d r hd _
    have hpat : isDashPat (' ' :: d :: ' ' :: r) = true := by
      rcases hd with rfl | rfl <;> rfl
    simp [splitDash, hpat]
  | cons c l' ih =>
    intro d r hd h
    have h0 : isDashPat (c :: (l' ++ ' ' :: d :: ' ' :: r)) = false := by
      simpa using h 0 (by simp)
    have hshift : ∀ i, i < l'.length →
        isDashPat ((l' ++ ' ' :: d :: ' ' :: r).drop i) = false := by
      intro i hi
      simpa [List.drop_succ_cons] using h (i + 1) (by simp; omega)
    simp [splitDash, h0, ih d r hd hshift]

/-- C6 counterexample: a heading with an em dash surrounded by spaces
whose left part is the qualifier "Beste" is NOT split — the prompt's dash
patterns are only the plain hyphen and the en dash — so `titleLabel` is
`none` and `name` is the full heading, where the claim predicts
`titleLabel = "Beste"`. -/
theorem titleSplit_em_dash_cex :
    isSub " — ".toList "Beste — Koffiemachine X".toList = true ∧
    qualifies "Beste".toList = true ∧
    titleSplit "Beste — Koffiemachine X".toList
      = (none, "Beste — Koffiemachine X".toList) :=
  ⟨by decide, by decide, by decide⟩

/-- C6 (amended): the heading is split only at a space-surrounded plain
hyphen or en dash (not an em dash).  If no such dash pattern occurs the
result is `(none, trimmed heading)`; if the heading decomposes at the
first such occurrence into left and right parts, the result is
`(left trimmed, right trimmed)` exactly when the trimmed left part
case-insensitively starts with a qualifier word, and
`(none, trimmed heading)` otherwise. -/
theorem titleSplit_characterization :
    (∀ h2 : Str, (∀ i, i < h2.length → isDashPat (h2.drop i) = false) →
        titleSplit h2 = (none, pyStrip h2)) ∧
    (∀ (l : Str) (d : Char) (r : Str), (d = '-' ∨ d = '–') →
        (∀ i, i < l.length → isDashPat ((l ++ ' ' :: d :: ' ' :: r).drop i) = false) →
        titleSplit (l ++ ' ' :: d :: ' ' :: r)
          = if qualifies (pyStrip l) then (some (pyStrip l), pyStrip r)
            else (none, pyStrip (l ++ ' ' :: d :: ' ' :: r))) := by
  constructor
  · intro h2 h
    unfold titleSplit
    rw [splitDash_eq_none h2 h]
  · intro l d r hd h
    unfold titleSplit
    rw [splitDash_append l d r hd h]

/-- Witness for C6 (amended) at a dash-free heading and at a heading that
splits at a plain hyphen with the qualifier "Budget". -/
theorem titleSplit_characterization_witness :
    titleSplit "Espresso Deluxe".toList = (none, "Espresso Deluxe".toList) ∧
    titleSplit "Budget Pick - Grind 5000".toList
      = (some "Budget Pick".toList, "Grind 5000".toList) := by
  constructor
  · exact (titleSplit_characterization.1 "Espresso Deluxe".toList (by decide)).trans
      (by decide)
  · have heq : "Budget Pick - Grind 5000".toList
        = "Budget Pick".toList ++ ' ' :: '-' :: ' ' :: "Grind 5000".toList := by decide
    rw [heq]
    exact (titleSplit_characterization.2 "Budget Pick".toList '-' "Grind 5000".toList
      (Or.inl rfl) (by decide)).trans (by decide)

/-- C7: the tags are computed from rank, title label, summary and pros by
the fixed-order closed-vocabulary rules and from nothing else: rank 1
always yields "best_overall"; a title label containing "budget"
(case-insensitively) yields "budget_pick"; a summary containing the
phrase "beste prijs-kwaliteit" yields "best_value" even when the title
label is absent; and every produced tag belongs to the four-element
vocabulary. -/
theorem computeTags_rules :
    ∀ (rank : Nat) (titleLabel : Option Str) (summary : Str) (pros : List Str),
      (rank = 1 → "best_overall".toList ∈ computeTags rank titleLabel summary pros) ∧
      (∀ l : Str, titleLabel = some l → containsCI l "budget".toList = true →
          "budget_pick".toList ∈ computeTags rank titleLabel summary pros) ∧
      (containsCI summary "beste prijs-kwaliteit".toList = true →
          "best_value".toList ∈ computeTags rank titleLabel summary pros) ∧
      (∀ t ∈ computeTags rank titleLabel summary pros,
          t ∈ ["best_overall".toList, "budget_pick".toList,
               "premium_pick".toList, "best_value".toList]) := by
  intro rank titleLabel summary pros
  refine ⟨?_, ?_, ?_, ?_⟩
  · intro hr
    simp [computeTags, hr]
  · intro l hl hb
    subst hl
    have hb' : containsCI l ['b', 'u', 'd', 'g', 'e', 't'] = true := hb
    simp [computeTags, hb']
  · intro hs
    have hsub : containsCI summary "prijs-kwaliteit".toList = true := by
      unfold containsCI at hs ⊢
      exact isSub_trans (by decide) hs
    simp only [computeTags, VALUE_PHRASES, List.any_cons, List.any_nil,
      List.mem_append, hsub, Bool.true_or, Bool.or_true, if_true]
    simp
  · intro t ht
    simp only [computeTags, List.mem_append] at ht
    rcases ht with ((h1 | h2) | h3) | h4
    · split at h1 <;> simp_all
    · split at h2 <;> simp_all
    · split at h3 <;> simp_all
    · split at h4 <;> simp_all

/-- Witness for C7: the three rules fire at a rank-1 product labelled
"Budgetkeuze" and at an unlabelled product whose summary contains
"beste prijs-kwaliteit". -/
theorem computeTags_rules_witness :
    "best_overall".toList ∈ computeTags 1 (some "Budgetkeuze".toList) "x".toList [] ∧
    "budget_pick".toList ∈ computeTags 1 (some "Budgetkeuze".toList) "x".toList [] ∧
    "best_value".toList
      ∈ computeTags 2 none "Dit is de beste prijs-kwaliteit.".toList [] :=
  ⟨(computeTags_rules 1 (some "Budgetkeuze".toList) "x".toList []).1 rfl,
   (computeTags_rules 1 (some "Budgetkeuze".toList) "x".toList []).2.1
     "Budgetkeuze".toList rfl (by decide),
   (computeTags_rules 2 none "Dit is de beste prijs-kwaliteit.".toList []).2.2.1
     (by decide)⟩

theorem isStripTag_childBlind : ChildBlind isStripTag := fun _ _ _ _ => rfl

theorem isCommentNode_childBlind : ChildBlind isCommentNode := fun _ _ _ _ => rfl

theorem isStyleHidden_childBlind : ChildBlind isStyleHidden := fun _ _ _ _ => rfl

theorem hasHiddenAttr_childBlind : ChildBlind hasHiddenAttr := fun _ _ _ _ => rfl

theorem isTagB_childBlind (t : Str) : ChildBlind (isTagB t) := fun _ _ _ _ => rfl

theorem removeF_noneSat (p : Node → Bool) (hp : ChildBlind p) :
    ∀ f : Forest, noneSatF p (removeF p f) = true := by
  intro f
  induction f using removeF.induct p with
  | case1 => rfl
  | case2 t a cs ns hcond ih => simpa [removeF, hcond] using ih
  | case3 t a cs ns hcond ih1 ih2 =>
    have hcond2 : p (Node.element t a (removeF p cs)) = false := by
      rw [hp t a (removeF p cs) cs]
      exact Bool.not_eq_true _ ▸ hcond
    simp [removeF, hcond, noneSatF, hcond2, ih1, ih2]
  | case4 n ns hne hcond ih =>
    cases n with
    | element t a cs => exact absurd rfl (hne t a cs)
    | text s => simp_all [removeF, noneSatF]
    | comment s => simp_all [removeF, noneSatF]
  | case5 n ns hne hcond ih =>
    cases n with
    | element t a cs => exact absurd rfl (hne t a cs)
    | text s => simp_all [removeF, noneSatF]
    | comment s => simp_all [removeF, noneSatF]

theorem removeF_preserve (p q : Node → Bool) (hq : ChildBlind q) :
    ∀ f : Forest, noneSatF q f = true → noneSatF q (removeF p f) = true := by
  intro f
  induction f using removeF.induct p with
  | case1 => intro _; rfl
  | case2 t a cs ns hcond ih =>
    intro hf
    simp only [noneSatF, Bool.and_eq_true] at hf
    simpa [removeF, hcond] using ih hf.2
  | case3 t a cs ns hcond ih1 ih2 =>
    intro hf
    simp only [noneSatF, Bool.and_eq_true] at hf
    have hq2 : q (Node.element t a (removeF p cs)) = q (Node.element t a cs) :=
      hq t a (removeF p cs) cs
    simp [removeF, hcond, noneSatF, hq2, hf.1.1, ih1 hf.1.2, ih2 hf.2]
  | case4 n ns hne hcond ih =>
    intro hf
    cases n with
    | element t a cs => exact absurd rfl (hne t a cs)
    | text s => simp_all [removeF, noneSatF]
    | comment s => simp_all [removeF, noneSatF]
  | case5 n ns hne hcond ih =>
    intro hf
    cases n with
    | element t a cs => exact absurd rfl (hne t a cs)
    | text s => simp_all [removeF, noneSatF]
    | comment s => simp_all [removeF, noneSatF]

theorem noneSat_mono (p q : Node → Bool) (himp : ∀ n, q n = true → p n = true) :
    ∀ f : Forest, noneSatF p f = true → noneSatF q f = true := by
  intro f
  induction f using noneSatF.induct p with
  | case1 => intro _; rfl
  | case2 t a cs ns ih1 ih2 =>
    intro hf
    simp only [noneSatF, Bool.and_eq_true, Bool.not_eq_true'] at hf ⊢
    refine ⟨⟨?_, ih1 hf.1.2⟩, ih2 hf.2⟩
    by_contra hqe
    have : q (Node.element t a cs) = true := by
      cases hq : q (Node.element t a cs)
      · exact absurd hq hqe
      · rfl
    rw [himp _ this] at hf
    exact absurd hf.1.1 (by decide)
  | case3 n ns hne ih =>
    intro hf
    cases n with
    | element t a cs => exact absurd rfl (hne t a cs)
    | text s =>
      simp only [noneSatF, Bool.and_eq_true, Bool.not_eq_true'] at hf ⊢
      refine ⟨?_, ih hf.2⟩
      by_contra hqe
      have : q (Node.text s) = true := by
        cases hq : q (Node.text s)
        · exact absurd hq hqe
        · rfl
      rw [himp _ this] at hf
      exact absurd hf.1 (by decide)
    | comment s =>
      simp only [noneSatF, Bool.and_eq_true, Bool.not_eq_true'] at hf ⊢
      refine ⟨?_, ih hf.2⟩
      by_contra hqe
      have : q (Node.comment s) = true := by
        cases hq : q (Node.comment s)
        · exact absurd hq hqe
        · rfl
      rw [himp _ this] at hf
      exact absurd hf.1 (by decide)

theorem sanitize_noneSat_strip (doc : Forest) :
    noneSatF isStripTag (sanitizeF doc) = true := by
  unfold sanitizeF
  exact removeF_preserve hasHiddenAttr isStripTag isStripTag_childBlind _
    (removeF_preserve isStyleHidden isStripTag isStripTag_childBlind _
      (removeF_preserve isCommentNode isStripTag isStripTag_childBlind _
        (removeF_noneSat isStripTag isStripTag_childBlind doc)))

theorem sanitize_noneSat_styleHidden (doc : Forest) :
    noneSatF isStyleHidden (sanitizeF doc) = true := by
  unfold sanitizeF
  exact removeF_preserve hasHiddenAttr isStyleHidden isStyleHidden_childBlind _
    (removeF_noneSat isStyleHidden isStyleHidden_childBlind _)

theorem sanitize_noneSat_hiddenAttr (doc : Forest) :
    noneSatF hasHiddenAttr (sanitizeF doc) = true := by
  unfold sanitizeF
  exact removeF_noneSat hasHiddenAttr hasHiddenAttr_childBlind _

theorem findTag_spec_aux (t : Str) : ∀ k : Nat,
    (∀ n : Node, sizeOf n = k → findTagN t n = (preorderN n).find? (isTagB t)) ∧
    (∀ f : Forest, sizeOf f = k → findTagF t f = (preorderF f).find? (isTagB t)) := by
  intro k
  induction k using Nat.strong_induction_on with
  | _ k ih =>
    constructor
    · rintro n rfl
      cases n with
      | element t' a cs =>
        have hlt : sizeOf cs < sizeOf (Node.element t' a cs) := by
          have := Node.element.sizeOf_spec t' a cs
          omega
        have hF := (ih _ hlt).2 cs rfl
        simp only [findTagN, preorderN]
        by_cases h : t' = t
        · rw [List.find?_cons_of_pos _ (by simp [isTagB, h]), if_pos h]
        · rw [List.find?_cons_of_neg _ (by simp [isTagB, h]), if_neg h]
          exact hF
      | text s =>
        simp [findTagN, preorderN, isTagB, List.find?]
      | comment s =>
        simp [findTagN, preorderN, isTagB, List.find?]
    · rintro f rfl
      cases f with
      | nil => rfl
      | cons n ns =>
        have hlt1 : sizeOf n < sizeOf (Forest.cons n ns) := by
          have := Forest.cons.sizeOf_spec n ns
          omega
        have hlt2 : sizeOf ns < sizeOf (Forest.cons n ns) := by
          have := Forest.cons.sizeOf_spec n ns
          omega
        have h1 := (ih _ hlt1).1 n rfl
        have h2 := (ih _ hlt2).2 ns rfl
        simp only [findTagF, preorderF, List.find?_append, h1, h2]
        cases (preorderN n).find? (isTagB t) <;> simp [Option.or]

theorem findTagF_spec (t : Str) (f : Forest) :
    findTagF t f = (preorderF f).find? (isTagB t) :=
  (findTag_spec_aux t (sizeOf f)).2 f rfl

/-- C5: the cleaned markup of `fetch_and_clean` is the serialization of
exactly the subtree selected by first document-order match of `<main>`,
else `<article>`, else `<body>`, else the whole (sanitized) document. -/
theorem cleaned_root_selection (doc : Forest) :
    (cleanDoc doc).1 =
      (match (preorderF (sanitizeF doc)).find? (isTagB "main".toList) with
       | some m => serializeN m
       | none =>
         match (preorderF (sanitizeF doc)).find? (isTagB "article".toList) with
         | some m => serializeN m
         | none =>
           match (preorderF (sanitizeF doc)).find? (isTagB "body".toList) with
           | some m => serializeN m
           | none => serializeF (sanitizeF doc)) := by
  show cleanedMarkup doc = _
  simp only [cleanedMarkup, findTagF_spec]

/-- C4 counterexample: a document containing a script element (text
content "x"), a nav element and a `display:none` element, whose cleaned
markup still contains the script's literal text content, because the same
text also occurs in retained content. -/
theorem sanitize_text_leak_cex :
    (preorderF leakDoc).any
        (fun n => isTagB "script".toList n && (textContentN n == "x".toList)) = true ∧
    (preorderF leakDoc).any (isTagB "nav".toList) = true ∧
    (preorderF leakDoc).any isStyleHidden = true ∧
    isSub "x".toList (cleanedMarkup leakDoc) = true :=
  ⟨by decide, by decide, by decide, by decide⟩

/-- C4 (amended): the sanitizer removes every script element, nav element
and `display:none`-styled element from the tree, so the cleaned markup is
serialized from a tree containing none of them; on the spec's test
document, whose three marker texts occur only inside those elements, the
cleaned markup contains none of the three texts as a substring. -/
theorem sanitize_removes_chrome :
    (∀ doc : Forest,
        noneSatF (isTagB "script".toList) (sanitizeF doc) = true ∧
        noneSatF (isTagB "nav".toList) (sanitizeF doc) = true ∧
        noneSatF isStyleHidden (sanitizeF doc) = true) ∧
    ((preorderF sampleDoc).any
        (fun n => isTagB "script".toList n
          && (textContentN n == "SCRIPTSECRET".toList)) = true ∧
     (preorderF sampleDoc).any
        (fun n => isTagB "nav".toList n
          && (textContentN n == "NAVSECRET".toList)) = true ∧
     (preorderF sampleDoc).any
        (fun n => isStyleHidden n
          && (textContentN n == "HIDDENSECRET".toList)) = true) ∧
    (isSub "SCRIPTSECRET".toList (cleanedMarkup sampleDoc) = false ∧
     isSub "NAVSECRET".toList (cleanedMarkup sampleDoc) = false ∧
     isSub "HIDDENSECRET".toList (cleanedMarkup sampleDoc) = false) := by
  refine ⟨?_, ⟨by decide, by decide, by decide⟩, by decide, by decide, by decide⟩
  intro doc
  refine ⟨?_, ?_, sanitize_noneSat_styleHidden doc⟩
  · refine noneSat_mono isStripTag (isTagB "script".toList) ?_ _
      (sanitize_noneSat_strip doc)
    intro n hn
    cases n with
    | element t' a cs =>
      simp only [isTagB, decide_eq_true_eq] at hn
      simp [isStripTag, hn, STRIP_TAGS]
    | text s => exact absurd hn (by simp [isTagB])
    | comment s => exact absurd hn (by simp [isTagB])
  · refine noneSat_mono isStripTag (isTagB "nav".toList) ?_ _
      (sanitize_noneSat_strip doc)
    intro n hn
    cases n with
    | element t' a cs =>
      simp only [isTagB, decide_eq_true_eq] at hn
      simp [isStripTag, hn, STRIP_TAGS]
    | text s => exact absurd hn (by simp [isTagB])
    | comment s => exact absurd hn (by simp [isTagB])

/-- C8 counterexample: an element whose inline style is `display:`, tab,
`none` — hidden under the claim's "ignoring internal whitespace, including
tab" matching — is NOT removed: its text survives in the cleaned markup,
because the code normalizes only space characters. -/
theorem hidden_style_tab_cex :
    (preorderF tabDoc).any
        (fun n =>
          match n with
          | .element _ a _ =>
            match attrLookup "style".toList a with
            | some v => isSub "display:none".toList (v.filter (fun c => !c.isWhitespace))
            | none => false
          | _ => false) = true ∧
    (preorderF tabDoc).any isStyleHidden = false ∧
    isSub "TABSECRET".toList (cleanedMarkup tabDoc) = true :=
  ⟨by decide, by decide, by decide⟩

/-- C8 (amended): sanitization removes each element whose inline style,
after removing space characters only (not tab or newline whitespace),
contains `display:none`, and each element carrying a `hidden` attribute;
on the concrete document both a `display: none` (space) div and a
`hidden`-attribute div are removed. -/
theorem hidden_removal_space_only :
    (∀ doc : Forest,
        noneSatF isStyleHidden (sanitizeF doc) = true ∧
        noneSatF hasHiddenAttr (sanitizeF doc) = true) ∧
    ((preorderF spaceDoc).any isStyleHidden = true ∧
     (preorderF spaceDoc).any hasHiddenAttr = true) ∧
    (isSub "SPACESECRET".toList (cleanedMarkup spaceDoc) = false ∧
     isSub "HIDATTRSECRET".toList (cleanedMarkup spaceDoc) = false) :=
  ⟨fun doc => ⟨sanitize_noneSat_styleHidden doc, sanitize_noneSat_hiddenAttr doc⟩,
   ⟨by decide, by decide⟩, by decide, by decide⟩

end Paa
